import Mathlib

/-!
Verification development for the docker-image-exchange repository.

Part A models the TypeScript admin-dashboard helpers as found in the
source (`src/utils/auth.ts` and the `request` helper of `src/api.ts`).

Part B models the document storage coordination layer (MetadataIndex,
DocumentCoordinator, BulkTransferEngine) whose behaviour is documented in
the repository (Document Manager API documentation, Knowledge Manager
documentation) and specified in the specification; the Python
implementation itself is not part of the exported sources, so those
definitions are modelled from the specification, as marked in their doc
comments.
-/

/-! ## Association-list store primitives

Both `localStorage` (string-keyed string store) and the in-memory
metadata/blob stores are key-value stores; we model them as association
lists with lookup of the first matching key, overwrite-or-append set, and
remove-all-occurrences delete. -/

/-- Look up the first value bound to key `k`. -/
def alookup {V : Type} : List (String × V) → String → Option V
  | [], _ => none
  | (k', v) :: rest, k => if k = k' then some v else alookup rest k

/-- Bind key `k` to `v`, overwriting the first existing binding or
appending a fresh one. -/
def aset {V : Type} : List (String × V) → String → V → List (String × V)
  | [], k, v => [(k, v)]
  | (k', v') :: rest, k, v =>
      if k = k' then (k, v) :: rest else (k', v') :: aset rest k v

/-- Remove every binding of key `k`. -/
def aremove {V : Type} (l : List (String × V)) (k : String) : List (String × V) :=
  l.filter (fun p => p.1 ≠ k)

/-! ## Part A: TypeScript dashboard helpers (from the source)

`src/utils/auth.ts` stores the access token in `localStorage` under the
key `access_token`; `src/api.ts`'s `request` wraps `fetch`. -/

/-- The browser `localStorage`: a string-keyed string store. -/
abbrev LocalStorage : Type := List (String × String)

/-- The key used by `src/utils/auth.ts`. -/
def tokenKey : String := "access_token"

/-- `getToken` of `src/utils/auth.ts`: `localStorage.getItem('access_token')`. -/
def getToken (ls : LocalStorage) : Option String := alookup ls tokenKey

/-- `setToken` of `src/utils/auth.ts`: `localStorage.setItem('access_token', token)`. -/
def setToken (token : String) (ls : LocalStorage) : LocalStorage :=
  aset ls tokenKey token

/-- `removeToken` of `src/utils/auth.ts`: `localStorage.removeItem('access_token')`. -/
def removeToken (ls : LocalStorage) : LocalStorage := aremove ls tokenKey

/-- Errors thrown by the dashboard API client `request` helper. -/
inductive ApiError where
  | unauthorized
  | http (message : String) (status : Nat)
  | parseFailure
  deriving DecidableEq, Repr

/-- An HTTP response as observed by `request`: its status code, the body
parsed as JSON of the expected type when that parse succeeds, the
`error_description` field when the body parses as an error object, and
the raw body text. -/
structure HttpResponse (T : Type) where
  status : Nat
  jsonBody : Option T
  errorDescription : Option String
  textBody : String

/-- `response.ok` of the Fetch API: status in the 2xx range. -/
def responseOk (status : Nat) : Bool := 200 ≤ status && status < 300

/-- The `request` helper of `src/api.ts`: on status 401 it removes the
stored token and throws `Unauthorized`; on any other non-ok response it
throws an error built from `error_description`, the body text, or the
status; on an ok response it resolves with the parsed JSON body (or
throws if the body fails to parse). Returns the updated `localStorage`
together with the outcome. -/
def request {T : Type} (ls : LocalStorage) (resp : HttpResponse T) :
    LocalStorage × Except ApiError T :=
  if resp.status = 401 then
    (removeToken ls, .error .unauthorized)
  else if responseOk resp.status = false then
    let msg :=
      match resp.errorDescription with
      | some d => d
      | none =>
          if resp.textBody ≠ "" then resp.textBody
          else "HTTP " ++ toString resp.status
    (ls, .error (.http msg resp.status))
  else
    match resp.jsonBody with
    | some v => (ls, .ok v)
    | none => (ls, .error .parseFailure)

/-! ## Part B: document storage coordination layer

The repository documents this layer (Document Manager API documentation,
Knowledge Manager documentation) but the Python implementation is not
among the exported sources, so the definitions below are modelled from
the specification. -/

/-- Modelled from the spec: a document tag, `{name, display_name}`,
equality by name. -/
structure Tag where
  name : String
  displayName : String
  deriving DecidableEq, Repr

/-- Modelled from the spec: document metadata — filename, content type,
size, UTC timestamps (as naturals), optional description, tags
(duplicates by name collapsed), custom fields (open string mapping) and
aliases. -/
structure DocumentMetadata where
  name : String
  contentType : String
  size : Nat
  createdAt : Nat
  updatedAt : Nat
  description : Option String
  tags : List Tag
  customFields : List (String × String)
  aliases : List String
  deriving DecidableEq, Repr

/-- Modelled from the spec: a document — unique key, metadata, and the
storage key derived from the storage prefix and the key. -/
structure Document where
  key : String
  metadata : DocumentMetadata
  storage_key : String
  deriving DecidableEq, Repr

/-- Modelled from the spec: the error taxonomy of §7. -/
inductive CoordError where
  | notFound
  | duplicateKey
  | duplicateAlias
  | sizeMismatch
  | invalidTTL
  | keyGenerationExhausted
  | keyAlreadyExists
  | storageUnavailable
  deriving DecidableEq, Repr

deriving instance DecidableEq for Except

/-- The in-memory metadata index: document key → Document. -/
abbrev Index : Type := List (String × Document)

/-- The blob store: storage key → blob bytes. -/
abbrev BlobStore : Type := List (String × List Nat)

/-- State of the coordination layer: the metadata index, the storage
backend contents, and the configured storage prefix. -/
structure SysState where
  index : Index
  storage : BlobStore
  storagePfx : String
  deriving DecidableEq, Repr

/-- Modelled from the spec: an alias in `aliases` is already owned by a
document whose key differs from `k`. -/
def AliasConflict (idx : Index) (k : String) (aliases : List String) : Prop :=
  ∃ a ∈ aliases, ∃ p ∈ idx, p.1 ≠ k ∧ a ∈ p.2.metadata.aliases

instance (idx : Index) (k : String) (aliases : List String) :
    Decidable (AliasConflict idx k aliases) := by
  unfold AliasConflict
  exact List.decidableBEx _ aliases

/-- Modelled from the spec: `MetadataIndex.insert` — fails with
`DuplicateKeyError` if the key is present, with `DuplicateAliasError` if
any alias is owned by a different key; otherwise adds the document. -/
def insertDoc (idx : Index) (doc : Document) : Except CoordError Index :=
  match alookup idx doc.key with
  | some _ => .error .duplicateKey
  | none =>
      if AliasConflict idx doc.key doc.metadata.aliases then .error .duplicateAlias
      else .ok ((doc.key, doc) :: idx)

/-- Modelled from the spec: collapse duplicate tags by name, keeping the
first occurrence. -/
def dedupTags : List Tag → List Tag :=
  go []
where
  go (seen : List String) : List Tag → List Tag
    | [] => []
    | t :: ts => if t.name ∈ seen then go seen ts else t :: go (t.name :: seen) ts

/-- Caller-supplied metadata fields for document creation. -/
structure Fields where
  filename : String
  contentType : String
  description : Option String
  tags : List Tag
  customFields : List (String × String)
  aliases : List String
  deriving DecidableEq, Repr

/-- Modelled from the spec: the deterministic storage-key derivation,
`storage_prefix + "/" + key`. -/
def storageKeyOf (pfx k : String) : String := pfx ++ "/" ++ k

/-- Modelled from the spec: build the Document record for a settled key
at creation time `now` (both timestamps set to `now`). -/
def mkDoc (pfx k : String) (now : Nat) (f : Fields) (size : Nat) : Document :=
  { key := k
    metadata :=
      { name := f.filename
        contentType := f.contentType
        size := size
        createdAt := now
        updatedAt := now
        description := f.description
        tags := dedupTags f.tags
        customFields := f.customFields
        aliases := f.aliases }
    storage_key := storageKeyOf pfx k }

/-- Modelled from the spec: generated-key search — try `gen 0`,
`gen 1`, …, checking each against the index, up to `fuel` attempts. -/
def genFreshKey (idx : Index) (gen : Nat → String) : Nat → Nat → Except CoordError String
  | 0, _ => .error .keyGenerationExhausted
  | fuel + 1, i =>
      match alookup idx (gen i) with
      | some _ => genFreshKey idx gen fuel (i + 1)
      | none => .ok (gen i)

/-- Modelled from the spec: settle the document key — a caller-supplied
key must be absent from the index (else `KeyAlreadyExistsError`); an
auto-generated key is collision-checked against the index with a bounded
retry count. -/
def resolveKey (idx : Index) (gen : Nat → String) (maxAttempts : Nat) :
    Option String → Except CoordError String
  | some k =>
      match alookup idx k with
      | some _ => .error .keyAlreadyExists
      | none => .ok k
  | none => genFreshKey idx gen maxAttempts 0

/-- Fault injection for the storage backend: whether the blob `put` of
this call fails, and whether a blob `delete` of this call fails. -/
structure FaultPlan where
  putFails : Bool
  deleteFails : Bool
  deriving DecidableEq, Repr

/-- An upload failure: the underlying error, and whether an
`OrphanedBlobWarning` is attached (compensating delete failed, leaving
an orphaned blob). -/
structure UploadFailure where
  err : CoordError
  orphanWarning : Bool
  deriving DecidableEq, Repr

/-- Modelled from the spec: the shared staged-write protocol of
`upload_from_file` / `upload_from_stream` — settle the key against the
index, write the blob to the storage backend first, and only on a
confirmed write insert the metadata; if the insert fails, perform the
compensating blob delete, attaching an `OrphanedBlobWarning` to the
surfaced error when that delete itself fails. -/
def uploadCore (st : SysState) (plan : FaultPlan) (now : Nat) (data : List Nat)
    (f : Fields) (size : Nat) (gen : Nat → String) (maxAttempts : Nat)
    (documentKey : Option String) : SysState × Except UploadFailure Document :=
  match resolveKey st.index gen maxAttempts documentKey with
  | .error e => (st, .error ⟨e, false⟩)
  | .ok k =>
      if plan.putFails then (st, .error ⟨.storageUnavailable, false⟩)
      else
        match insertDoc st.index (mkDoc st.storagePfx k now f size) with
        | .ok idx1 =>
            ({ st with
                index := idx1
                storage := aset st.storage (storageKeyOf st.storagePfx k) data },
             .ok (mkDoc st.storagePfx k now f size))
        | .error e =>
            if plan.deleteFails then
              ({ st with
                  storage := aset st.storage (storageKeyOf st.storagePfx k) data },
               .error ⟨e, true⟩)
            else
              ({ st with
                  storage :=
                    aremove (aset st.storage (storageKeyOf st.storagePfx k) data)
                      (storageKeyOf st.storagePfx k) },
               .error ⟨e, false⟩)

/-- Modelled from the spec: `upload_from_stream` — the declared size
must match the bytes actually written (else `SizeMismatchError`, before
any storage call); then the staged-write protocol. -/
def upload_from_stream (st : SysState) (plan : FaultPlan) (now : Nat)
    (data : List Nat) (f : Fields) (size : Nat) (gen : Nat → String)
    (maxAttempts : Nat) (documentKey : Option String) :
    SysState × Except UploadFailure Document :=
  if size ≠ data.length then (st, .error ⟨.sizeMismatch, false⟩)
  else uploadCore st plan now data f size gen maxAttempts documentKey

/-- The local filesystem: path → file bytes. -/
abbrev LocalFs : Type := List (String × List Nat)

/-- Modelled from the spec: `upload_from_file` — read the local file
(`NotFoundError` if absent), take its size, then the staged-write
protocol. -/
def upload_from_file (st : SysState) (plan : FaultPlan) (now : Nat)
    (fs : LocalFs) (path : String) (f : Fields) (gen : Nat → String)
    (maxAttempts : Nat) (documentKey : Option String) :
    SysState × Except UploadFailure Document :=
  match alookup fs path with
  | none => (st, .error ⟨.notFound, false⟩)
  | some data => uploadCore st plan now data f data.length gen maxAttempts documentKey

/-- Modelled from the spec: `create_document` — settle the key (bounded,
collision-checked generation, or `KeyAlreadyExistsError` on a
caller-supplied collision), then insert into the index only; storage is
not touched. -/
def create_document (st : SysState) (now : Nat) (f : Fields) (size : Nat)
    (gen : Nat → String) (maxAttempts : Nat) (documentKey : Option String) :
    SysState × Except CoordError Document :=
  match resolveKey st.index gen maxAttempts documentKey with
  | .error e => (st, .error e)
  | .ok k =>
      let doc := mkDoc st.storagePfx k now f size
      match insertDoc st.index doc with
      | .ok idx1 => ({ st with index := idx1 }, .ok doc)
      | .error e => (st, .error e)

/-- Modelled from the spec: `get_content` — `NotFoundError` if the key
is absent from the index, else delegate to the storage backend at the
document's storage key (missing blob surfaces as
`StorageUnavailableError`). -/
def get_content (st : SysState) (key : String) : Except CoordError (List Nat) :=
  match alookup st.index key with
  | none => .error .notFound
  | some d =>
      match alookup st.storage d.storage_key with
      | none => .error .storageUnavailable
      | some bytes => .ok bytes

/-- The storage backend's presign capability, modelled as a
deterministic URL. -/
def presign (sk : String) (ttl : Int) : String :=
  "https://storage.example/" ++ sk ++ "?expires=" ++ toString ttl

/-- Modelled from the spec: `get_presigned_url` — the TTL must be
positive (else `InvalidTTLError`, before any lookup), the key must be in
the index (else `NotFoundError`), and the URL comes from
`StorageBackend.presign` on the document's storage key. -/
def get_presigned_url (st : SysState) (key : String) (ttl : Int) :
    Except CoordError String :=
  if ttl ≤ 0 then .error .invalidTTL
  else
    match alookup st.index key with
    | none => .error .notFound
    | some d => .ok (presign d.storage_key ttl)

/-- A metadata patch: only non-null fields are applied. -/
structure MetadataPatch where
  description : Option String
  tags : Option (List Tag)
  customFields : Option (List (String × String))
  aliases : Option (List String)
  deriving DecidableEq, Repr

/-- Modelled from the spec: apply the non-null fields of a patch,
recomputing `updated_at`. -/
def applyPatch (d : Document) (patch : MetadataPatch) (now : Nat) : Document :=
  { d with
    metadata :=
      { d.metadata with
        description :=
          match patch.description with
          | some s => some s
          | none => d.metadata.description
        tags := (patch.tags.map dedupTags).getD d.metadata.tags
        customFields := patch.customFields.getD d.metadata.customFields
        aliases := patch.aliases.getD d.metadata.aliases
        updatedAt := now } }

/-- Replace the document bound to key `k` (first component preserved). -/
def aupdate (idx : Index) (k : String) (d : Document) : Index :=
  idx.map (fun p => if p.1 = k then (p.1, d) else p)

/-- Modelled from the spec: `update_metadata` — pure index operation;
`NotFoundError` if the key is absent; any newly added alias that is
owned by a different key rejects the entire update with
`DuplicateAliasError`, leaving prior state untouched; otherwise the
patch is committed with a recomputed `updated_at`. The newly added
aliases of a patch are those not already on the document. -/
def newAliasesOf (d : Document) (patch : MetadataPatch) : List String :=
  match patch.aliases with
  | none => []
  | some ls => ls.filter (fun a => a ∉ d.metadata.aliases)

/-- Modelled from the spec: `update_metadata` body, after the newly
added aliases of the patch have been computed. -/
def update_metadata (st : SysState) (now : Nat) (key : String)
    (patch : MetadataPatch) : SysState × Except CoordError Document :=
  match alookup st.index key with
  | none => (st, .error .notFound)
  | some d =>
      if AliasConflict st.index key (newAliasesOf d patch) then
        (st, .error .duplicateAlias)
      else
        ({ st with index := aupdate st.index key (applyPatch d patch now) },
         .ok (applyPatch d patch now))

/-- Modelled from the spec: the explicit delete — remove the index entry
and the backing blob; if the blob delete fails the blob is reported as
orphaned via the warning flag. -/
def delete_document (st : SysState) (plan : FaultPlan) (key : String) :
    SysState × Except UploadFailure Unit :=
  match alookup st.index key with
  | none => (st, .error ⟨.notFound, false⟩)
  | some d =>
      if plan.deleteFails then
        ({ st with index := aremove st.index key }, .ok ())
      else
        ({ st with
            index := aremove st.index key
            storage := aremove st.storage d.storage_key }, .ok ())

/-- Modelled from the spec: `clear` — drop all index entries without
touching storage. -/
def clearIndex (st : SysState) : SysState := { st with index := [] }

/-- Modelled from the spec: `document_exists`. -/
def document_exists (st : SysState) (key : String) : Bool :=
  (alookup st.index key).isSome

/-- Modelled from the spec: `get_document_by_alias`. -/
def get_document_by_alias (st : SysState) (alias0 : String) : Option Document :=
  (st.index.find? (fun p => p.2.metadata.aliases.contains alias0)).map Prod.snd

/-- Key order on documents, for the lexicographic listing. -/
def docKeyLE (a b : Document) : Prop := a.key ≤ b.key

instance : DecidableRel docKeyLE := fun a b => by
  unfold docKeyLE
  infer_instance

instance : IsTotal Document docKeyLE := ⟨fun a b => le_total a.key b.key⟩

instance : IsTrans Document docKeyLE := ⟨fun _ _ _ h1 h2 => le_trans h1 h2⟩

/-- The string `s` starts with `pre` (on the underlying character
lists). -/
def keyStartsWith (s pre : String) : Bool :=
  pre.data.isPrefixOf s.data

/-- Modelled from the spec: `list_documents` — the documents whose key
starts with the given prefix, in lexicographic key order, truncated at
`limit`. -/
def list_documents (st : SysState) (pfx : String) (limit : Nat) : List Document :=
  (((st.index.map Prod.snd).filter (fun d => keyStartsWith d.key pfx)).insertionSort
    docKeyLE).take limit

/-! ### BulkTransferEngine (Knowledge bulk operations) -/

/-- A scanned file of the knowledge tree: its relative path (with
forward-slash separators) and content. -/
structure FileEntry where
  relPath : String
  content : List Nat
  deriving DecidableEq, Repr

/-- Modelled from the spec: the object key of a file — the optional
prefix joined to the relative path with a forward slash. -/
def objectKeyOf (pfx : Option String) (rel : String) : String :=
  match pfx with
  | none => rel
  | some p => p ++ "/" ++ rel

/-- Aggregate result of a bulk transfer: the object keys that succeeded,
and the `(relative_path, error)` pairs that failed. -/
structure BatchResult where
  succeeded : List String
  failed : List (String × String)
  deriving DecidableEq, Repr

/-- Modelled from the spec: `upload_all` — every file is attempted
(`fails rel = some e` injects a storage failure with error `e` for that
file); per-file outcomes are collected without aborting the batch, into
a succeeded/failed partition. -/
def upload_all (fails : String → Option String) (pfx : Option String) :
    List FileEntry → BatchResult
  | [] => ⟨[], []⟩
  | f :: rest =>
      let r := upload_all fails pfx rest
      match fails f.relPath with
      | some e => ⟨r.succeeded, (f.relPath, e) :: r.failed⟩
      | none => ⟨objectKeyOf pfx f.relPath :: r.succeeded, r.failed⟩

/-! ### Reachable states of the coordination layer -/

/-- A state-mutating operation of the coordination layer, with its fault
injections and nondeterministic inputs as parameters. -/
inductive Op where
  | createDoc (now : Nat) (f : Fields) (size : Nat) (gen : Nat → String)
      (maxAttempts : Nat) (documentKey : Option String)
  | uploadStream (plan : FaultPlan) (now : Nat) (data : List Nat) (f : Fields)
      (size : Nat) (gen : Nat → String) (maxAttempts : Nat)
      (documentKey : Option String)
  | uploadFile (plan : FaultPlan) (now : Nat) (fs : LocalFs) (path : String)
      (f : Fields) (gen : Nat → String) (maxAttempts : Nat)
      (documentKey : Option String)
  | deleteDoc (plan : FaultPlan) (key : String)
  | updateMeta (now : Nat) (key : String) (patch : MetadataPatch)
  | clearAll

/-- Apply one operation to the state (discarding the caller-visible
result). -/
def applyOp (st : SysState) : Op → SysState
  | .createDoc now f size gen m dk => (create_document st now f size gen m dk).1
  | .uploadStream plan now data f size gen m dk =>
      (upload_from_stream st plan now data f size gen m dk).1
  | .uploadFile plan now fs path f gen m dk =>
      (upload_from_file st plan now fs path f gen m dk).1
  | .deleteDoc plan key => (delete_document st plan key).1
  | .updateMeta now key patch => (update_metadata st now key patch).1
  | .clearAll => clearIndex st

/-- Apply a sequence of operations. -/
def applyOps (st : SysState) (ops : List Op) : SysState :=
  ops.foldl applyOp st

/-- The initial state: empty index, empty storage. -/
def initState (pfx : String) : SysState := ⟨[], [], pfx⟩

/-- Whether an operation is a `create_document` call. -/
def Op.isCreateDoc : Op → Bool
  | .createDoc .. => true
  | _ => false

/-- The blob-correspondence invariant: every document present in the
metadata index has a blob in the storage backend at its storage key. -/
def BlobInvariant (st : SysState) : Prop :=
  ∀ p ∈ st.index, (alookup st.storage p.2.storage_key).isSome

/-- The strengthened well-formedness invariant: duplicate-free keys,
deterministic storage-key derivation, and blob correspondence. -/
def GoodState (st : SysState) : Prop :=
  (st.index.map Prod.fst).Nodup ∧
  ∀ p ∈ st.index,
    p.2.storage_key = storageKeyOf st.storagePfx p.1 ∧
    (alookup st.storage p.2.storage_key).isSome

/-- Concrete metadata fields used by the witnesses below. -/
def fieldsW : Fields := ⟨"report.pdf", "application/pdf", none, [], [], []⟩

/-- Concrete document used by the witnesses below. -/
def docW : Document := mkDoc "documents" "k" 0 fieldsW 2

/-- Concrete coordinator state used by the witnesses below. -/
def stW : SysState := ⟨[("k", docW)], [("documents/k", [1, 2])], "documents"⟩

/-- Concrete document owning alias `x`, used by the witnesses below. -/
def docA : Document :=
  mkDoc "documents" "a" 0 ⟨"a.txt", "text/plain", none, [], [], ["x"]⟩ 1

/-- Concrete second document without aliases, used by the witnesses
below. -/
def docB : Document := mkDoc "documents" "b" 0 fieldsW 1

/-- Concrete two-document state used by the witnesses below. -/
def stAB : SysState :=
  ⟨[("a", docA), ("b", docB)], [("documents/a", [0]), ("documents/b", [0])],
   "documents"⟩

/-- Concrete one-document state (document `a` owns alias `x`) used by
the witnesses below. -/
def stX : SysState := ⟨[("a", docA)], [("documents/a", [0])], "documents"⟩

/-- Concrete upload fields carrying the conflicting alias `x`. -/
def fX : Fields := ⟨"b.txt", "text/plain", none, [], [], ["x"]⟩

/-- Concrete three-file batch used by the witnesses below. -/
def filesW : List FileEntry := [⟨"a.md", [1]⟩, ⟨"b.md", [2]⟩, ⟨"c.md", [3]⟩]

/-- Concrete fault injection failing exactly `b.md`. -/
def failsW : String → Option String :=
  fun r => if r = "b.md" then some "io error" else none

/-- The one-operation sequence consisting of a `create_document` call. -/
def opsC3 : List Op := [Op.createDoc 0 fieldsW 5 (fun _ => "k") 1 none]

/-- Fault-free two-operation sequence used by the witness below. -/
def opsW : List Op :=
  [Op.uploadStream ⟨false, false⟩ 0 [1, 2] fieldsW 2 (fun _ => "k") 1 none,
   Op.updateMeta 3 "k" (MetadataPatch.mk (some "desc") none none none)]

/-! ## Lemmas and claim theorems -/

theorem alookup_aset_self {V : Type} (l : List (String × V)) (k : String) (v : V) :
    alookup (aset l k v) k = some v := by
  induction l with
  | nil => simp [aset, alookup]
  | cons p rest ih =>
      by_cases h : k = p.1
      · simp [aset, h, alookup]
      · simp [aset, h, alookup, ih]

theorem alookup_aset_ne {V : Type} (l : List (String × V)) (k k' : String) (v : V)
    (h : k' ≠ k) : alookup (aset l k v) k' = alookup l k' := by
  induction l with
  | nil => simp [aset, alookup, h]
  | cons p rest ih =>
      by_cases hk : k = p.1
      · subst hk
        simp [aset, alookup, h, ih]
      · by_cases hk' : k' = p.1
        · simp [aset, alookup, hk, hk']
        · simp [aset, alookup, hk, hk', ih]

theorem alookup_aremove_self {V : Type} (l : List (String × V)) (k : String) :
    alookup (aremove l k) k = none := by
  induction l with
  | nil => simp [aremove, alookup]
  | cons p rest ih =>
      by_cases h : p.1 = k
      · simpa [aremove, h] using ih
      · have : k ≠ p.1 := fun hk => h hk.symm
        simpa [aremove, h, alookup, this] using ih

theorem alookup_aremove_ne {V : Type} (l : List (String × V)) (k k' : String)
    (h : k' ≠ k) : alookup (aremove l k) k' = alookup l k' := by
  induction l with
  | nil => simp [aremove, alookup]
  | cons p rest ih =>
      by_cases hp : p.1 = k
      · have hne : k' ≠ p.1 := fun hk => h (hk.trans hp)
        simpa [aremove, hp, alookup, hne, h] using ih
      · by_cases hk' : k' = p.1
        · simp [aremove, hp, alookup, hk']
        · simpa [aremove, hp, alookup, hk'] using ih

theorem aremove_aremove {V : Type} (l : List (String × V)) (k : String) :
    aremove (aremove l k) k = aremove l k := by
  simp [aremove, List.filter_filter]

/-- `alookup` finds an actual entry of the list. -/
theorem alookup_mem {V : Type} (l : List (String × V)) (k : String) (v : V)
    (h : alookup l k = some v) : (k, v) ∈ l := by
  induction l with
  | nil => simp [alookup] at h
  | cons p rest ih =>
      by_cases hk : k = p.1
      · subst hk
        simp [alookup] at h
        obtain ⟨k1, v1⟩ := p
        cases h
        exact List.mem_cons_self _ _
      · simp [alookup, hk] at h
        exact List.mem_cons_of_mem _ (ih h)

/-- A key absent from `alookup` is absent from the key projection. -/
theorem alookup_eq_none_iff {V : Type} (l : List (String × V)) (k : String) :
    alookup l k = none ↔ k ∉ l.map Prod.fst := by
  induction l with
  | nil => simp [alookup]
  | cons p rest ih =>
      by_cases hk : k = p.1
      · simp [alookup, hk]
      · simp [alookup, hk, ih]

/-- A member entry has a successful lookup. -/
theorem alookup_isSome_of_mem {V : Type} (l : List (String × V)) (p : String × V)
    (h : p ∈ l) : (alookup l p.1).isSome := by
  induction l with
  | nil => simp at h
  | cons q rest ih =>
      rw [List.mem_cons] at h
      rcases h with h | h
      · subst h
        simp [alookup]
      · by_cases hk : p.1 = q.1
        · simp [alookup, hk]
        · simpa [alookup, hk] using ih h

/-- With duplicate-free keys, membership determines the lookup result. -/
theorem alookup_of_mem_nodup {V : Type} (l : List (String × V)) (p : String × V)
    (hmem : p ∈ l) (hnd : (l.map Prod.fst).Nodup) : alookup l p.1 = some p.2 := by
  induction l with
  | nil => simp at hmem
  | cons q rest ih =>
      simp only [List.map_cons, List.nodup_cons] at hnd
      rw [List.mem_cons] at hmem
      rcases hmem with h | h
      · subst h
        simp [alookup]
      · by_cases hk : p.1 = q.1
        · exfalso
          exact hnd.1 (hk ▸ List.mem_map_of_mem Prod.fst h)
        · simpa [alookup, hk] using ih h hnd.2

/-- C10: the token store is a last-write-wins single-slot store —
`setToken t` then `getToken` returns `t` regardless of prior state,
`removeToken` then `getToken` returns `null`, and `removeToken` is
idempotent. -/
theorem token_store_single_slot :
    (∀ (t : String) (ls : LocalStorage), getToken (setToken t ls) = some t) ∧
    (∀ ls : LocalStorage, getToken (removeToken ls) = none) ∧
    (∀ ls : LocalStorage, removeToken (removeToken ls) = removeToken ls) :=
  ⟨fun t ls => alookup_aset_self ls tokenKey t,
   fun ls => alookup_aremove_self ls tokenKey,
   fun ls => aremove_aremove ls tokenKey⟩

/-- C9: the dashboard API client `request` resolves with the parsed JSON
body only when the response status is ok; every non-ok response yields a
thrown error, and on status 401 the stored access token is removed
before the throw. -/
theorem request_resolves_only_on_ok :
    ∀ (T : Type) (ls : LocalStorage) (resp : HttpResponse T),
      (∀ v, (request ls resp).2 = .ok v →
        responseOk resp.status = true ∧ resp.jsonBody = some v) ∧
      (responseOk resp.status = false → ∃ e, (request ls resp).2 = .error e) ∧
      (resp.status = 401 →
        (request ls resp).1 = removeToken ls ∧
        (request ls resp).2 = .error .unauthorized ∧
        getToken (request ls resp).1 = none) := by
  intro T ls resp
  refine ⟨?_, ?_, ?_⟩
  · intro v hv
    unfold request at hv
    split at hv
    · simp at hv
    · split at hv
      · simp at hv
      · rename_i hok
        cases hj : resp.jsonBody with
        | none => rw [hj] at hv; simp at hv
        | some w =>
            rw [hj] at hv
            simp at hv
            subst hv
            exact ⟨by simpa using hok, rfl⟩
  · intro hok
    unfold request
    by_cases h401 : resp.status = 401
    · rw [if_pos h401]
      exact ⟨.unauthorized, rfl⟩
    · rw [if_neg h401, if_pos hok]
      exact ⟨_, rfl⟩
  · intro h401
    unfold request
    rw [if_pos h401]
    exact ⟨rfl, rfl, alookup_aremove_self ls tokenKey⟩

/-- Witness for C9 at concrete responses: a 401 response clears the token
and raises `Unauthorized`; a 500 response raises; a 200 response with
body `7` resolves with `7` and is ok. -/
theorem request_resolves_only_on_ok_witness :
    ((request [(tokenKey, "tok")] (⟨401, none, none, ""⟩ : HttpResponse Nat)).1 =
        removeToken [(tokenKey, "tok")] ∧
      (request [(tokenKey, "tok")] (⟨401, none, none, ""⟩ : HttpResponse Nat)).2 =
        .error .unauthorized ∧
      getToken (request [(tokenKey, "tok")] (⟨401, none, none, ""⟩ : HttpResponse Nat)).1 =
        none) ∧
    (∃ e, (request [] (⟨500, none, none, ""⟩ : HttpResponse Nat)).2 = .error e) ∧
    (responseOk 200 = true ∧
      (⟨200, some 7, none, ""⟩ : HttpResponse Nat).jsonBody = some 7) :=
  ⟨(request_resolves_only_on_ok Nat [(tokenKey, "tok")] ⟨401, none, none, ""⟩).2.2 rfl,
   (request_resolves_only_on_ok Nat [] ⟨500, none, none, ""⟩).2.1 (by decide),
   (request_resolves_only_on_ok Nat [] ⟨200, some 7, none, ""⟩).1 7 rfl⟩

/-- C8: `get_presigned_url` fails with `InvalidTTLError` whenever the
TTL is not positive; with a positive TTL it reports not-found for a key
absent from the index and otherwise returns the storage backend's
presigned URL for the document's storage key. -/
theorem get_presigned_url_spec (st : SysState) (key : String) (ttl : Int) :
    (ttl ≤ 0 → get_presigned_url st key ttl = .error .invalidTTL) ∧
    (0 < ttl → alookup st.index key = none →
      get_presigned_url st key ttl = .error .notFound) ∧
    (0 < ttl → ∀ d, alookup st.index key = some d →
      get_presigned_url st key ttl = .ok (presign d.storage_key ttl)) := by
  refine ⟨?_, ?_, ?_⟩
  · intro h
    unfold get_presigned_url
    rw [if_pos h]
  · intro h hnone
    unfold get_presigned_url
    rw [if_neg (not_le.mpr h), hnone]
  · intro h d hd
    unfold get_presigned_url
    rw [if_neg (not_le.mpr h), hd]

theorem genFreshKey_exhausted (idx : Index) (gen : Nat → String) :
    ∀ (fuel i0 : Nat), (∀ j < fuel, (alookup idx (gen (i0 + j))).isSome) →
      genFreshKey idx gen fuel i0 = .error .keyGenerationExhausted := by
  intro fuel
  induction fuel with
  | zero => intro i0 _; rfl
  | succ n ih =>
      intro i0 h
      have h0 := h 0 (Nat.succ_pos n)
      rw [Nat.add_zero] at h0
      unfold genFreshKey
      cases hk : alookup idx (gen i0) with
      | none => rw [hk] at h0; simp at h0
      | some d =>
          have := ih (i0 + 1) fun j hj => by
            have := h (j + 1) (Nat.succ_lt_succ hj)
            rwa [show i0 + (j + 1) = i0 + 1 + j by omega] at this
          simp [this]

theorem genFreshKey_fresh (idx : Index) (gen : Nat → String) :
    ∀ (fuel i0 : Nat) (k : String), genFreshKey idx gen fuel i0 = .ok k →
      alookup idx k = none := by
  intro fuel
  induction fuel with
  | zero => intro i0 k h; exact absurd h (by simp [genFreshKey])
  | succ n ih =>
      intro i0 k h
      unfold genFreshKey at h
      cases hk : alookup idx (gen i0) with
      | none =>
          rw [hk] at h
          simp at h
          rwa [← h]
      | some d =>
          rw [hk] at h
          simp at h
          exact ih (i0 + 1) k h

theorem genFreshKey_first (idx : Index) (gen : Nat → String) :
    ∀ (fuel i0 j : Nat), j < fuel → alookup idx (gen (i0 + j)) = none →
      (∀ i < j, (alookup idx (gen (i0 + i))).isSome) →
      genFreshKey idx gen fuel i0 = .ok (gen (i0 + j)) := by
  intro fuel
  induction fuel with
  | zero => intro i0 j hj; exact absurd hj (Nat.not_lt_zero j)
  | succ n ih =>
      intro i0 j hj hfree hbusy
      cases j with
      | zero =>
          rw [Nat.add_zero] at hfree
          unfold genFreshKey
          rw [hfree]
          simp
      | succ j' =>
          have h0 := hbusy 0 (Nat.succ_pos j')
          rw [Nat.add_zero] at h0
          cases hk : alookup idx (gen i0) with
          | none => rw [hk] at h0; simp at h0
          | some d =>
              have hstep : genFreshKey idx gen (n + 1) i0 =
                  genFreshKey idx gen n (i0 + 1) := by
                conv_lhs => unfold genFreshKey
                rw [hk]
              rw [hstep]
              rw [show i0 + (j' + 1) = i0 + 1 + j' by omega] at hfree ⊢
              exact ih (i0 + 1) j' (Nat.lt_of_succ_lt_succ hj) hfree fun i hi => by
                have := hbusy (i + 1) (Nat.succ_lt_succ hi)
                rwa [show i0 + (i + 1) = i0 + 1 + i by omega] at this

/-- A key returned by `resolveKey` is always absent from the index. -/
theorem resolveKey_fresh (idx : Index) (gen : Nat → String) (m : Nat)
    (dk : Option String) (k : String) (h : resolveKey idx gen m dk = .ok k) :
    alookup idx k = none := by
  cases dk with
  | none => exact genFreshKey_fresh idx gen m 0 k h
  | some k0 =>
      simp only [resolveKey] at h
      cases hk : alookup idx k0 with
      | none => rw [hk] at h; simp at h; rwa [← h]
      | some d => rw [hk] at h; simp at h

/-- C6: `create_document` collision-checks each generated key against
the index, retries up to the bounded attempt count and fails with
`KeyGenerationExhaustedError` when the bound is exhausted; a
caller-supplied key already present fails with `KeyAlreadyExistsError`
leaving the index unchanged; and any key actually assigned is fresh. -/
theorem create_document_key_spec (st : SysState) (now : Nat) (f : Fields)
    (size : Nat) (gen : Nat → String) (m : Nat) :
    (∀ k d, alookup st.index k = some d →
      create_document st now f size gen m (some k) = (st, .error .keyAlreadyExists)) ∧
    ((∀ i < m, (alookup st.index (gen i)).isSome) →
      create_document st now f size gen m none = (st, .error .keyGenerationExhausted)) ∧
    (∀ j < m, alookup st.index (gen j) = none →
      (∀ i < j, (alookup st.index (gen i)).isSome) →
      resolveKey st.index gen m none = .ok (gen j)) ∧
    (∀ dk k, resolveKey st.index gen m dk = .ok k → alookup st.index k = none) := by
  refine ⟨?_, ?_, ?_, fun dk k h => resolveKey_fresh st.index gen m dk k h⟩
  · intro k d hd
    simp only [create_document, resolveKey]
    rw [hd]
  · intro h
    simp only [create_document, resolveKey]
    rw [genFreshKey_exhausted st.index gen m 0 fun j hj => by
      rw [Nat.zero_add]; exact h j hj]
  · intro j hj hfree hbusy
    have := genFreshKey_first st.index gen m 0 j hj (by rwa [Nat.zero_add])
      fun i hi => by rw [Nat.zero_add]; exact hbusy i hi
    rw [Nat.zero_add] at this
    simpa [resolveKey] using this

/-- Witness for C8 at TTLs 0 and 3600 on a one-document state. -/
theorem get_presigned_url_spec_witness :
    ((0 : Int) ≤ 0 ∧ get_presigned_url stW "k" 0 = .error .invalidTTL) ∧
    ((0 : Int) < 3600 ∧ alookup stW.index "absent" = none ∧
      get_presigned_url stW "absent" 3600 = .error .notFound) ∧
    ((0 : Int) < 3600 ∧ alookup stW.index "k" = some docW ∧
      get_presigned_url stW "k" 3600 = .ok (presign docW.storage_key 3600)) :=
  ⟨⟨le_refl 0, (get_presigned_url_spec stW "k" 0).1 (le_refl 0)⟩,
   ⟨by decide, by decide,
    (get_presigned_url_spec stW "absent" 3600).2.1 (by decide) (by decide)⟩,
   ⟨by decide, by decide,
    (get_presigned_url_spec stW "k" 3600).2.2 (by decide) docW (by decide)⟩⟩

/-- Witness for C6: a present caller-supplied key is rejected leaving
the state unchanged; a generator whose keys always collide exhausts a
bound of 2; a generator that collides once succeeds at its second key. -/
theorem create_document_key_spec_witness :
    (alookup stW.index "k" = some docW ∧
      create_document stW 0 fieldsW 2 (fun _ => "k") 2 (some "k") =
        (stW, .error .keyAlreadyExists)) ∧
    ((∀ i < 2, (alookup stW.index ((fun _ => "k") i)).isSome) ∧
      create_document stW 0 fieldsW 2 (fun _ => "k") 2 none =
        (stW, .error .keyGenerationExhausted)) ∧
    ((1 : Nat) < 3 ∧
      alookup stW.index ((fun i => if i = 0 then "k" else "k2") 1) = none ∧
      resolveKey stW.index (fun i => if i = 0 then "k" else "k2") 3 none = .ok "k2") :=
  ⟨⟨by decide,
    (create_document_key_spec stW 0 fieldsW 2 (fun _ => "k") 2).1 "k" docW (by decide)⟩,
   ⟨fun i _ => by show (alookup stW.index "k").isSome; decide,
    (create_document_key_spec stW 0 fieldsW 2 (fun _ => "k") 2).2.1
      fun i _ => by show (alookup stW.index "k").isSome; decide⟩,
   ⟨by decide,
    by show alookup stW.index "k2" = none; decide,
    by
      have := (create_document_key_spec stW 0 fieldsW 2
        (fun i => if i = 0 then "k" else "k2") 3).2.2.1 1 (by decide)
        (by show alookup stW.index "k2" = none; decide)
        (fun i hi => by
          have hi0 : i = 0 := by omega
          subst hi0
          show (alookup stW.index "k").isSome
          decide)
      simpa using this⟩⟩

/-- A successful insert conses the document onto the index. -/
theorem insertDoc_ok (idx : Index) (doc : Document) (idx1 : Index)
    (h : insertDoc idx doc = .ok idx1) : idx1 = (doc.key, doc) :: idx := by
  unfold insertDoc at h
  cases hk : alookup idx doc.key with
  | some d => rw [hk] at h; simp at h
  | none =>
      rw [hk] at h
      by_cases hc : AliasConflict idx doc.key doc.metadata.aliases
      · rw [if_pos hc] at h; simp at h
      · rw [if_neg hc] at h
        simp at h
        exact h.symm

/-- C5: round-trip — whenever `upload_from_stream` succeeds, reading the
returned document's content through `get_content` yields exactly the
uploaded bytes. -/
theorem upload_then_get_content (st : SysState) (plan : FaultPlan) (now : Nat)
    (data : List Nat) (f : Fields) (size : Nat) (gen : Nat → String) (m : Nat)
    (dk : Option String) (st1 : SysState) (doc : Document)
    (h : upload_from_stream st plan now data f size gen m dk = (st1, .ok doc)) :
    get_content st1 doc.key = .ok data := by
  unfold upload_from_stream uploadCore at h
  split at h
  · simp at h
  · split at h
    · simp at h
    · rename_i k hrk
      split at h
      · simp at h
      · split at h
        · rename_i idx1 hins
          simp only [Prod.mk.injEq] at h
          obtain ⟨hst1, hdoc⟩ := h
          simp only [Except.ok.injEq] at hdoc
          subst hdoc
          rw [← hst1]
          have hidx1 := insertDoc_ok st.index _ idx1 hins
          subst hidx1
          simp [get_content, alookup, mkDoc, storageKeyOf, alookup_aset_self]
        · rename_i e hins
          split at h
          · simp at h
          · simp at h

/-- Witness for C5: uploading bytes `[1, 2]` into the empty coordinator
and reading the resulting document back returns `[1, 2]`. -/
theorem upload_then_get_content_witness :
    upload_from_stream (initState "documents") ⟨false, false⟩ 0 [1, 2] fieldsW 2
        (fun _ => "k") 1 none = (stW, .ok docW) ∧
    get_content stW docW.key = .ok [1, 2] :=
  ⟨by decide,
   upload_then_get_content (initState "documents") ⟨false, false⟩ 0 [1, 2] fieldsW 2
     (fun _ => "k") 1 none stW docW (by decide)⟩

/-- C4: assigning an alias already owned by another document via
`update_metadata` fails with `DuplicateAliasError` and leaves the entire
state — in particular both documents' records — exactly as it was. -/
theorem update_metadata_alias_conflict (st : SysState) (now : Nat)
    (akey bkey x : String) (A B : Document) (patch : MetadataPatch)
    (ls : List String)
    (hA : alookup st.index akey = some A) (hx : x ∈ A.metadata.aliases)
    (hne : akey ≠ bkey)
    (hB : alookup st.index bkey = some B)
    (hp : patch.aliases = some ls) (hxl : x ∈ ls)
    (hxB : x ∉ B.metadata.aliases) :
    update_metadata st now bkey patch = (st, .error .duplicateAlias) := by
  have hxNew : x ∈ newAliasesOf B patch := by
    rw [newAliasesOf, hp]
    exact List.mem_filter.mpr ⟨hxl, by simpa using hxB⟩
  have hconf : AliasConflict st.index bkey (newAliasesOf B patch) :=
    ⟨x, hxNew, (akey, A), alookup_mem st.index akey A hA, hne, hx⟩
  simp only [update_metadata, hB]
  rw [if_pos hconf]

/-- Witness for C4: with document `a` owning alias `x`, patching
document `b` with alias `x` is rejected and the state is untouched. -/
theorem update_metadata_alias_conflict_witness :
    alookup stAB.index "a" = some docA ∧ "x" ∈ docA.metadata.aliases ∧
    ("a" : String) ≠ "b" ∧ alookup stAB.index "b" = some docB ∧
    (MetadataPatch.mk none none none (some ["x"])).aliases = some ["x"] ∧
    "x" ∈ (["x"] : List String) ∧ "x" ∉ docB.metadata.aliases ∧
    update_metadata stAB 5 "b" (MetadataPatch.mk none none none (some ["x"])) =
      (stAB, .error .duplicateAlias) :=
  ⟨by decide, by decide, by decide, by decide, rfl, by decide, by decide,
   update_metadata_alias_conflict stAB 5 "a" "b" "x" docA docB
     (MetadataPatch.mk none none none (some ["x"])) ["x"]
     (by decide) (by decide) (by decide) (by decide) rfl (by decide) (by decide)⟩

/-- C1: on any upload in which the blob write succeeds but the metadata
insert fails, the coordinator surfaces the insert error, leaves the
index unchanged, and performs the compensating blob delete — the blob is
gone when that delete works, and when the delete itself fails the
surfaced error carries the `OrphanedBlobWarning` flag (never a plain
success, never a plain failure without the warning); both
`upload_from_stream` and `upload_from_file` reduce to this staged
protocol. -/
theorem upload_insert_failure_compensates (st : SysState) (plan : FaultPlan)
    (now : Nat) (data : List Nat) (f : Fields) (size : Nat) (gen : Nat → String)
    (m : Nat) (dk : Option String) (fs : LocalFs) (path : String) (k : String)
    (e : CoordError)
    (hput : plan.putFails = false)
    (hk : resolveKey st.index gen m dk = .ok k)
    (hins : insertDoc st.index (mkDoc st.storagePfx k now f size) = .error e) :
    (uploadCore st plan now data f size gen m dk).1.index = st.index ∧
    (uploadCore st plan now data f size gen m dk).2 =
      .error ⟨e, plan.deleteFails⟩ ∧
    (plan.deleteFails = false →
      alookup (uploadCore st plan now data f size gen m dk).1.storage
        (storageKeyOf st.storagePfx k) = none) ∧
    (plan.deleteFails = true →
      alookup (uploadCore st plan now data f size gen m dk).1.storage
        (storageKeyOf st.storagePfx k) = some data) ∧
    (size = data.length →
      upload_from_stream st plan now data f size gen m dk =
        uploadCore st plan now data f size gen m dk) ∧
    (alookup fs path = some data → size = data.length →
      upload_from_file st plan now fs path f gen m dk =
        uploadCore st plan now data f size gen m dk) := by
  have hcore : uploadCore st plan now data f size gen m dk =
      if plan.deleteFails then
        ({ st with
            storage := aset st.storage (storageKeyOf st.storagePfx k) data },
         .error ⟨e, true⟩)
      else
        ({ st with
            storage :=
              aremove (aset st.storage (storageKeyOf st.storagePfx k) data)
                (storageKeyOf st.storagePfx k) },
         .error ⟨e, false⟩) := by
    simp only [uploadCore, hk, hput, hins]
    rfl
  refine ⟨?_, ?_, ?_, ?_, ?_, ?_⟩
  · rw [hcore]
    cases plan.deleteFails <;> rfl
  · rw [hcore]
    cases hdel : plan.deleteFails <;> simp
  · intro hdel
    rw [hcore, hdel]
    simp only [if_neg Bool.false_ne_true]
    exact alookup_aremove_self _ _
  · intro hdel
    rw [hcore, hdel]
    simp only [if_pos rfl]
    exact alookup_aset_self _ _ _
  · intro hsz
    unfold upload_from_stream
    rw [if_neg (by omega)]
  · intro hfs hsz
    unfold upload_from_file
    rw [hfs, hsz]

/-- Witness for C1: an upload whose insert hits an alias conflict — with
a working compensating delete the blob is removed and the error carries
no warning; with a failing compensating delete the orphaned blob remains
and the error carries the `OrphanedBlobWarning` flag. -/
theorem upload_insert_failure_compensates_witness :
    (FaultPlan.mk false false).putFails = false ∧
    resolveKey stX.index (fun _ => "b") 1 (some "b") = .ok "b" ∧
    insertDoc stX.index (mkDoc "documents" "b" 7 fX 1) = .error .duplicateAlias ∧
    (uploadCore stX ⟨false, false⟩ 7 [9] fX 1 (fun _ => "b") 1 (some "b")).2 =
      .error ⟨.duplicateAlias, false⟩ ∧
    alookup
      (uploadCore stX ⟨false, false⟩ 7 [9] fX 1 (fun _ => "b") 1 (some "b")).1.storage
      (storageKeyOf "documents" "b") = none ∧
    (uploadCore stX ⟨false, true⟩ 7 [9] fX 1 (fun _ => "b") 1 (some "b")).2 =
      .error ⟨.duplicateAlias, true⟩ ∧
    alookup
      (uploadCore stX ⟨false, true⟩ 7 [9] fX 1 (fun _ => "b") 1 (some "b")).1.storage
      (storageKeyOf "documents" "b") = some [9] :=
  ⟨rfl, by decide, by decide,
   (upload_insert_failure_compensates stX ⟨false, false⟩ 7 [9] fX 1 (fun _ => "b")
     1 (some "b") [] "" "b" .duplicateAlias rfl (by decide) (by decide)).2.1,
   (upload_insert_failure_compensates stX ⟨false, false⟩ 7 [9] fX 1 (fun _ => "b")
     1 (some "b") [] "" "b" .duplicateAlias rfl (by decide) (by decide)).2.2.1 rfl,
   (upload_insert_failure_compensates stX ⟨false, true⟩ 7 [9] fX 1 (fun _ => "b")
     1 (some "b") [] "" "b" .duplicateAlias rfl (by decide) (by decide)).2.1,
   (upload_insert_failure_compensates stX ⟨false, true⟩ 7 [9] fX 1 (fun _ => "b")
     1 (some "b") [] "" "b" .duplicateAlias rfl (by decide) (by decide)).2.2.2.1 rfl⟩

/-- The object-key mapping is injective in the relative path. -/
theorem objectKeyOf_inj (pfx : Option String) (a b : String)
    (h : objectKeyOf pfx a = objectKeyOf pfx b) : a = b := by
  cases pfx with
  | none => exact h
  | some p =>
      have hd := congrArg String.data h
      simp [objectKeyOf, String.data_append] at hd
      exact String.ext hd

/-- `upload_all` is the partition of the input by the per-file outcome:
succeeded keys are the mapped keys of the non-failing files, failures
pair each failing file's relative path with its error. -/
theorem upload_all_eq (fails : String → Option String) (pfx : Option String) :
    ∀ files : List FileEntry,
      upload_all fails pfx files =
        ⟨((files.filter fun f => (fails f.relPath).isNone).map
              FileEntry.relPath).map (objectKeyOf pfx),
         (files.filter fun f => (fails f.relPath).isSome).map
           (fun f => (f.relPath, (fails f.relPath).getD ""))⟩ := by
  intro files
  induction files with
  | nil => rfl
  | cons f rest ih =>
      unfold upload_all
      rw [ih]
      cases hf : fails f.relPath with
      | some e => simp [List.filter_cons, hf]
      | none => simp [List.filter_cons, hf]

theorem upload_all_length (fails : String → Option String) (pfx : Option String) :
    ∀ files : List FileEntry,
      (upload_all fails pfx files).succeeded.length +
        (upload_all fails pfx files).failed.length = files.length := by
  intro files
  induction files with
  | nil => rfl
  | cons f rest ih =>
      unfold upload_all
      cases hf : fails f.relPath <;> simp <;> omega

/-- C2: a single `upload_all` call accounts for every input file exactly
once — the succeeded keys and failed paths partition the batch (counts
add up, each file lands on exactly the side matching its outcome, no
duplicates, and nothing not coming from the input), even when some
files' storage writes fail. -/
theorem upload_all_partition (fails : String → Option String)
    (pfx : Option String) (files : List FileEntry)
    (hnd : (files.map FileEntry.relPath).Nodup) :
    (upload_all fails pfx files).succeeded.length +
      (upload_all fails pfx files).failed.length = files.length ∧
    (∀ f ∈ files,
      (objectKeyOf pfx f.relPath ∈ (upload_all fails pfx files).succeeded ↔
        fails f.relPath = none)) ∧
    (∀ f ∈ files,
      ((∃ e, (f.relPath, e) ∈ (upload_all fails pfx files).failed) ↔
        (fails f.relPath).isSome)) ∧
    (upload_all fails pfx files).succeeded.Nodup ∧
    ((upload_all fails pfx files).failed.map Prod.fst).Nodup ∧
    (∀ kk ∈ (upload_all fails pfx files).succeeded,
      ∃ f ∈ files, kk = objectKeyOf pfx f.relPath ∧ fails f.relPath = none) ∧
    (∀ pe ∈ (upload_all fails pfx files).failed,
      ∃ f ∈ files, pe.1 = f.relPath ∧ fails f.relPath = some pe.2) := by
  have he := upload_all_eq fails pfx files
  have hinj : ∀ x ∈ files, ∀ y ∈ files,
      FileEntry.relPath x = FileEntry.relPath y → x = y :=
    fun x hx y hy hxy => List.inj_on_of_nodup_map hnd hx hy hxy
  refine ⟨upload_all_length fails pfx files, ?_, ?_, ?_, ?_, ?_, ?_⟩
  · intro f hf
    rw [he]
    constructor
    · intro hmem
      simp only [List.mem_map] at hmem
      obtain ⟨rel, ⟨g, hg, hgrel⟩, hkey⟩ := hmem
      have hgf : g = f :=
        hinj g (List.mem_of_mem_filter hg) f hf
          (hgrel.trans (objectKeyOf_inj pfx rel f.relPath hkey))
      have := (List.mem_filter.mp hg).2
      rw [hgf] at this
      simpa [Option.isNone_iff_eq_none] using this
    · intro hnone
      exact List.mem_map_of_mem _ (List.mem_map_of_mem _
        (List.mem_filter.mpr ⟨hf, by simp [hnone]⟩))
  · intro f hf
    rw [he]
    constructor
    · intro ⟨e, hmem⟩
      simp only [List.mem_map] at hmem
      obtain ⟨g, hg, hge⟩ := hmem
      have hrel : g.relPath = f.relPath := congrArg Prod.fst hge
      have hgf : g = f := hinj g (List.mem_of_mem_filter hg) f hf hrel
      have := (List.mem_filter.mp hg).2
      rwa [hgf] at this
    · intro hsome
      obtain ⟨e, hc⟩ := Option.isSome_iff_exists.mp (by simpa using hsome)
      refine ⟨e, ?_⟩
      simp only [List.mem_map]
      exact ⟨f, List.mem_filter.mpr ⟨hf, by simp [hc]⟩, by simp [hc]⟩
  · rw [he]
    refine List.Nodup.map (fun a b => objectKeyOf_inj pfx a b) ?_
    exact List.Nodup.sublist ((List.filter_sublist files).map FileEntry.relPath) hnd
  · rw [he]
    have hm : ((files.filter fun f => (fails f.relPath).isSome).map
          (fun f => (f.relPath, (fails f.relPath).getD ""))).map Prod.fst =
        (files.filter fun f => (fails f.relPath).isSome).map FileEntry.relPath := by
      rw [List.map_map]
      rfl
    rw [hm]
    exact List.Nodup.sublist ((List.filter_sublist files).map FileEntry.relPath) hnd
  · intro kk hkk
    rw [he] at hkk
    simp only [List.mem_map] at hkk
    obtain ⟨rel, ⟨g, hg, hgrel⟩, hkey⟩ := hkk
    refine ⟨g, List.mem_of_mem_filter hg, by rw [← hkey, hgrel], ?_⟩
    have := (List.mem_filter.mp hg).2
    simpa [Option.isNone_iff_eq_none] using this
  · intro pe hpe
    rw [he] at hpe
    simp only [List.mem_map] at hpe
    obtain ⟨g, hg, hge⟩ := hpe
    have hsome := (List.mem_filter.mp hg).2
    obtain ⟨e, hc⟩ := Option.isSome_iff_exists.mp (by simpa using hsome)
    refine ⟨g, List.mem_of_mem_filter hg, ?_, ?_⟩
    · rw [← hge]
    · rw [← hge]
      simp [hc]

/-- Witness for C2 on a three-file batch whose middle file fails: the
counts partition, the failing file is reported, the others succeed. -/
theorem upload_all_partition_witness :
    (filesW.map FileEntry.relPath).Nodup ∧
    (upload_all failsW (some "kb") filesW).succeeded.length +
      (upload_all failsW (some "kb") filesW).failed.length = filesW.length ∧
    (upload_all failsW (some "kb") filesW).succeeded.Nodup ∧
    (objectKeyOf (some "kb") "a.md" ∈ (upload_all failsW (some "kb") filesW).succeeded ↔
      failsW "a.md" = none) ∧
    ((∃ e, ("b.md", e) ∈ (upload_all failsW (some "kb") filesW).failed) ↔
      (failsW "b.md").isSome) :=
  ⟨by decide,
   (upload_all_partition failsW (some "kb") filesW (by decide)).1,
   (upload_all_partition failsW (some "kb") filesW (by decide)).2.2.2.1,
   (upload_all_partition failsW (some "kb") filesW (by decide)).2.1
     ⟨"a.md", [1]⟩ (by decide),
   (upload_all_partition failsW (some "kb") filesW (by decide)).2.2.1
     ⟨"b.md", [2]⟩ (by decide)⟩

/-- C7: `list_documents` returns only documents of the index whose key
starts with the prefix, in lexicographic key order, at most `limit` of
them; every matching document is returned unless the limit was reached;
and the call is deterministic on an unchanged state. -/
theorem list_documents_spec (st : SysState) (pfx : String) (limit : Nat) :
    (∀ d ∈ list_documents st pfx limit,
      d ∈ st.index.map Prod.snd ∧ keyStartsWith d.key pfx = true) ∧
    List.Sorted docKeyLE (list_documents st pfx limit) ∧
    (list_documents st pfx limit).length ≤ limit ∧
    (∀ d ∈ st.index.map Prod.snd, keyStartsWith d.key pfx = true →
      d ∈ list_documents st pfx limit ∨
        (list_documents st pfx limit).length = limit) ∧
    list_documents st pfx limit = list_documents st pfx limit := by
  refine ⟨?_, ?_, ?_, ?_, rfl⟩
  · intro d hd
    have hsort := List.mem_of_mem_take hd
    have hfil := (List.perm_insertionSort docKeyLE _).mem_iff.mp hsort
    have := List.mem_filter.mp hfil
    exact ⟨this.1, this.2⟩
  · exact List.Pairwise.sublist (List.take_sublist _ _)
      (List.sorted_insertionSort docKeyLE _)
  · rw [list_documents, List.length_take]
    exact min_le_left _ _
  · intro d hd hpfx
    by_cases hlen : (((st.index.map Prod.snd).filter
        (fun d => keyStartsWith d.key pfx)).insertionSort docKeyLE).length ≤ limit
    · left
      rw [list_documents, List.take_of_length_le hlen]
      exact (List.perm_insertionSort docKeyLE _).mem_iff.mpr
        (List.mem_filter.mpr ⟨hd, hpfx⟩)
    · right
      rw [list_documents, List.length_take]
      omega

/-- Witness for C7 on a two-document state with a prefix matching one
document. -/
theorem list_documents_spec_witness :
    docA ∈ stAB.index.map Prod.snd ∧ keyStartsWith docA.key "a" = true ∧
    (docA ∈ list_documents stAB "a" 10 ∨ (list_documents stAB "a" 10).length = 10) ∧
    (list_documents stAB "" 1).length ≤ 1 :=
  ⟨by decide, by decide,
   (list_documents_spec stAB "a" 10).2.2.2.1 docA (by decide) (by decide),
   (list_documents_spec stAB "" 1).2.2.1⟩

/-- The storage-key derivation is injective in the document key. -/
theorem storageKeyOf_inj (pfx a b : String)
    (h : storageKeyOf pfx a = storageKeyOf pfx b) : a = b := by
  have hd := congrArg String.data h
  simp [storageKeyOf, String.data_append] at hd
  exact String.ext hd

/-- `aupdate` leaves the key projection unchanged. -/
theorem map_fst_aupdate (idx : Index) (k : String) (d : Document) :
    (aupdate idx k d).map Prod.fst = idx.map Prod.fst := by
  unfold aupdate
  rw [List.map_map]
  refine List.map_congr_left fun p _ => ?_
  by_cases hp : p.1 = k <;> simp [hp]

theorem goodState_uploadCore (st : SysState) (plan : FaultPlan) (now : Nat)
    (data : List Nat) (f : Fields) (size : Nat) (gen : Nat → String) (m : Nat)
    (dk : Option String) (hg : GoodState st) :
    GoodState (uploadCore st plan now data f size gen m dk).1 := by
  unfold uploadCore
  split
  · exact hg
  · rename_i k hrk
    have hfresh : alookup st.index k = none := resolveKey_fresh _ _ _ _ _ hrk
    split
    · exact hg
    · split
      · rename_i idx1 hins
        have hidx1 := insertDoc_ok _ _ _ hins
        subst hidx1
        constructor
        · have hk : (mkDoc st.storagePfx k now f size).key = k := rfl
          rw [List.map_cons, hk, List.nodup_cons]
          exact ⟨(alookup_eq_none_iff st.index k).mp hfresh, hg.1⟩
        · intro p hp
          rw [List.mem_cons] at hp
          rcases hp with hp | hp
          · subst hp
            exact ⟨rfl, by rw [show (mkDoc st.storagePfx k now f size).storage_key =
                storageKeyOf st.storagePfx k from rfl, alookup_aset_self]; rfl⟩
          · obtain ⟨hder, hsome⟩ := hg.2 p hp
            refine ⟨hder, ?_⟩
            by_cases hsk : p.2.storage_key = storageKeyOf st.storagePfx k
            · rw [hsk, alookup_aset_self]; rfl
            · rw [alookup_aset_ne _ _ _ _ hsk]
              exact hsome
      · rename_i e hins
        split
        · constructor
          · exact hg.1
          · intro p hp
            obtain ⟨hder, hsome⟩ := hg.2 p hp
            refine ⟨hder, ?_⟩
            by_cases hsk : p.2.storage_key = storageKeyOf st.storagePfx k
            · rw [hsk, alookup_aset_self]; rfl
            · rw [alookup_aset_ne _ _ _ _ hsk]
              exact hsome
        · constructor
          · exact hg.1
          · intro p hp
            obtain ⟨hder, hsome⟩ := hg.2 p hp
            refine ⟨hder, ?_⟩
            have hp1 : p.1 ≠ k := by
              intro hcontra
              have := alookup_isSome_of_mem st.index p hp
              rw [hcontra, hfresh] at this
              simp at this
            have hsk : p.2.storage_key ≠ storageKeyOf st.storagePfx k := by
              rw [hder]
              intro hcontra
              exact hp1 (storageKeyOf_inj st.storagePfx p.1 k hcontra)
            rw [alookup_aremove_ne _ _ _ hsk, alookup_aset_ne _ _ _ _ hsk]
            exact hsome

theorem goodState_update (st : SysState) (now : Nat) (key : String)
    (patch : MetadataPatch) (hg : GoodState st) :
    GoodState (update_metadata st now key patch).1 := by
  unfold update_metadata
  split
  · exact hg
  · rename_i d hd
    split
    · exact hg
    · constructor
      · rw [map_fst_aupdate]
        exact hg.1
      · intro p' hp'
        unfold aupdate at hp'
        obtain ⟨p, hp, hpe⟩ := List.mem_map.mp hp'
        by_cases hpk : p.1 = key
        · rw [if_pos hpk] at hpe
          have hlk := alookup_of_mem_nodup st.index p hp hg.1
          rw [hpk, hd] at hlk
          have hpd : p.2 = d := by
            injection hlk.symm
          obtain ⟨hder, hsome⟩ := hg.2 p hp
          subst hpe
          refine ⟨?_, ?_⟩
          · have : (applyPatch d patch now).storage_key = d.storage_key := rfl
            rw [this, ← hpd]
            exact hder
          · have : (applyPatch d patch now).storage_key = d.storage_key := rfl
            rw [this, ← hpd]
            exact hsome
        · rw [if_neg hpk] at hpe
          subst hpe
          exact hg.2 p hp

theorem goodState_delete (st : SysState) (plan : FaultPlan) (key : String)
    (hg : GoodState st) : GoodState (delete_document st plan key).1 := by
  unfold delete_document
  split
  · exact hg
  · rename_i d hd
    have hnd : ((aremove st.index key).map Prod.fst).Nodup :=
      List.Nodup.sublist (List.Sublist.map Prod.fst (List.filter_sublist st.index))
        hg.1
    split
    · exact ⟨hnd, fun p hp => hg.2 p (List.mem_of_mem_filter hp)⟩
    · refine ⟨hnd, fun p hp => ?_⟩
      have hmem := List.mem_filter.mp hp
      have hp1 : p.1 ≠ key := by simpa using hmem.2
      obtain ⟨hder, hsome⟩ := hg.2 p hmem.1
      have hdsk : d.storage_key = storageKeyOf st.storagePfx key :=
        (hg.2 (key, d) (alookup_mem st.index key d hd)).1
      have hsk : p.2.storage_key ≠ d.storage_key := by
        rw [hder, hdsk]
        intro hcontra
        exact hp1 (storageKeyOf_inj st.storagePfx p.1 key hcontra)
      exact ⟨hder, by rw [alookup_aremove_ne _ _ _ hsk]; exact hsome⟩

theorem goodState_applyOp (st : SysState) (op : Op) (hg : GoodState st)
    (hop : op.isCreateDoc = false) : GoodState (applyOp st op) := by
  cases op with
  | createDoc now f size gen m dk => simp [Op.isCreateDoc] at hop
  | uploadStream plan now data f size gen m dk =>
      show GoodState (upload_from_stream st plan now data f size gen m dk).1
      unfold upload_from_stream
      split
      · exact hg
      · exact goodState_uploadCore st plan now data f size gen m dk hg
  | uploadFile plan now fs path f gen m dk =>
      show GoodState (upload_from_file st plan now fs path f gen m dk).1
      unfold upload_from_file
      split
      · exact hg
      · exact goodState_uploadCore st plan now _ f _ gen m dk hg
  | deleteDoc plan key => exact goodState_delete st plan key hg
  | updateMeta now key patch => exact goodState_update st now key patch hg
  | clearAll =>
      refine ⟨by simp [applyOp, clearIndex], ?_⟩
      intro p hp
      simp [applyOp, clearIndex] at hp

theorem goodState_applyOps (ops : List Op) :
    ∀ st : SysState, GoodState st → (∀ op ∈ ops, op.isCreateDoc = false) →
      GoodState (applyOps st ops) := by
  induction ops with
  | nil => intro st hg _; exact hg
  | cons op rest ih =>
      intro st hg h
      exact ih (applyOp st op)
        (goodState_applyOp st op hg (h op (List.mem_cons_self _ _)))
        fun o ho => h o (List.mem_cons_of_mem _ ho)

/-- The initial state is well-formed. -/
theorem goodState_init (pfx : String) : GoodState (initState pfx) :=
  ⟨by simp [initState], by simp [initState]⟩

/-- C3 (amended): in every state reachable from the empty coordinator by
any sequence of operations not containing `create_document`, every
document in the metadata index has a blob in the storage backend at its
storage key; `create_document` is excluded because it registers metadata
without touching storage. -/
theorem blob_invariant_reachable_without_create (pfx : String) (ops : List Op)
    (h : ∀ op ∈ ops, op.isCreateDoc = false) :
    BlobInvariant (applyOps (initState pfx) ops) :=
  fun p hp =>
    ((goodState_applyOps ops (initState pfx) (goodState_init pfx) h).2 p hp).2

/-- Counterexample to C3 as stated: the state reached from the empty
coordinator by the single operation `create_document` holds a document
in the index whose storage key has no blob — `create_document` registers
metadata without any confirmed blob write. -/
theorem create_document_breaks_blob_invariant :
    ¬ BlobInvariant (applyOps (initState "documents") opsC3) := by
  intro h
  have hstate : applyOps (initState "documents") opsC3 =
      ⟨[("k", mkDoc "documents" "k" 0 fieldsW 5)], [], "documents"⟩ := by decide
  have hmem : ("k", mkDoc "documents" "k" 0 fieldsW 5) ∈
      (applyOps (initState "documents") opsC3).index := by
    rw [hstate]
    exact List.mem_cons_self _ _
  have hblob := h _ hmem
  rw [hstate] at hblob
  simp [alookup] at hblob

/-- Witness for the amended C3 on a concrete create-free operation
sequence: an upload followed by a metadata update. -/
theorem blob_invariant_reachable_without_create_witness :
    (∀ op ∈ opsW, op.isCreateDoc = false) ∧
    BlobInvariant (applyOps (initState "documents") opsW) :=
  ⟨by decide,
   blob_invariant_reachable_without_create "documents" opsW (by decide)⟩
